import Mathlib

/-
Shallow embedding of replace.js (src/replace.js), a jQuery plugin that
replaces a DOM subtree with the body of an asynchronous response.

Modelling conventions:
- A document is a forest `List Dom` of element trees.  An element carries its
  tag, its attribute list and its class list.  A node is addressed by a path
  `List Nat` of child indices from the document root; the ancestors of a node
  are the nonempty prefixes of its path, nearest first, which is exactly the
  chain `closest` walks.
- Markup strings are represented by their parsed node lists: the `data` field
  of a history state holds the parse of the serialized markup (parsing after
  serializing yields the original nodes for well-formed markup).
- The asynchronous request is split at its suspension point: the trigger
  phase (`ajaxReplaceTrigger`, everything `$.fn.ajaxReplace` runs
  synchronously) returns the mutated document, the emitted effects and a
  pending operation; the settle phase (`ajaxReplaceSettle`) consumes the
  outcome and runs the attached callbacks in jQuery order (the `always`
  callback was attached first, so it runs before the `done`/`fail` one).
- Effects (network requests, history writes, notifications, preventDefault)
  are recorded in an ordered trace.  A jQuery `.trigger` call on an empty
  element set dispatches nothing, so a notification effect is recorded only
  when the receiving set is nonempty.
- A JavaScript exception (reading `outerHTML` of `undefined`) is modelled by
  `Except.error ()`.
-/

namespace ReplaceJs

/-- Path of child indices addressing a node in a document forest. -/
abbrev Path := List Nat

/-- Element data: tag name, attributes and class list. -/
structure ElemData where
  tag : String
  attrs : List (String × String)
  classes : List String
  deriving Repr, DecidableEq

/-- A DOM element tree. -/
inductive Dom where
  | elem (ed : ElemData) (children : List Dom)
  deriving Repr

mutual

/-- Decidable equality of element trees. -/
def Dom.decEq : (a b : Dom) → Decidable (a = b)
  | .elem e cs, .elem e' cs' =>
    match inferInstanceAs (Decidable (e = e')) with
    | isFalse h => isFalse (by intro hh; injection hh; contradiction)
    | isTrue h =>
      match Dom.decEqList cs cs' with
      | isFalse h2 => isFalse (by intro hh; injection hh; contradiction)
      | isTrue h2 => isTrue (by rw [h, h2])

/-- Decidable equality of element forests. -/
def Dom.decEqList : (as bs : List Dom) → Decidable (as = bs)
  | [], [] => isTrue rfl
  | a :: as, b :: bs =>
    match Dom.decEq a b with
    | isFalse h => isFalse (by intro hh; injection hh; contradiction)
    | isTrue h =>
      match Dom.decEqList as bs with
      | isFalse h2 => isFalse (by intro hh; injection hh; contradiction)
      | isTrue h2 => isTrue (by rw [h, h2])
  | [], _ :: _ => isFalse (by intro hh; exact List.noConfusion hh)
  | _ :: _, [] => isFalse (by intro hh; exact List.noConfusion hh)

end

instance : DecidableEq Dom := Dom.decEq

/-- Element data of a node. -/
def Dom.ed : Dom → ElemData
  | .elem e _ => e

/-- Children of a node. -/
def Dom.children : Dom → List Dom
  | .elem _ cs => cs

/-- Apply a function to the element data of a node, keeping its children. -/
def Dom.mapEd (f : ElemData → ElemData) : Dom → Dom
  | .elem e cs => .elem (f e) cs

/-- Look up an attribute value. -/
def ElemData.attr (e : ElemData) (k : String) : Option String :=
  (e.attrs.find? (fun kv => kv.1 == k)).map (fun kv => kv.2)

/-- The selector forms the plugin uses: `*`, a class selector, a tag
selector, and a tag-with-attribute selector such as `form[data-replace]`. -/
inductive Selector where
  | univ
  | cls (c : String)
  | tag (t : String)
  | tagAttr (t a : String)
  deriving Repr, DecidableEq

/-- Whether one element satisfies a selector. -/
def Selector.matches : Selector → ElemData → Bool
  | .univ, _ => true
  | .cls c, e => e.classes.contains c
  | .tag t, e => e.tag == t
  | .tagAttr t a, e => e.tag == t && (e.attr a).isSome

/-- Node of a document at a path (`none` when the path is dangling). -/
def getNode (ts : List Dom) : Path → Option Dom
  | [] => none
  | [i] => ts[i]?
  | i :: j :: rest =>
    match ts[i]? with
    | some t => getNode t.children (j :: rest)
    | none => none

/-- Rewrite the node at a path with a function; dangling paths are no-ops. -/
def modifyNodeAt (ts : List Dom) : Path → (Dom → Dom) → List Dom
  | [], _ => ts
  | [i], f =>
    match ts[i]? with
    | some t => ts.set i (f t)
    | none => ts
  | i :: j :: rest, f =>
    match ts[i]? with
    | some t => ts.set i (Dom.elem t.ed (modifyNodeAt t.children (j :: rest) f))
    | none => ts

/-- Splice a node list in place of the node at a path (removing that node's
entire subtree), as `replaceWith` does; dangling paths are no-ops. -/
def spliceAt (ts : List Dom) : Path → List Dom → List Dom
  | [], _ => ts
  | [i], new => if i < ts.length then ts.take i ++ new ++ ts.drop (i + 1) else ts
  | i :: j :: rest, new =>
    match ts[i]? with
    | some t => ts.set i (Dom.elem t.ed (spliceAt t.children (j :: rest) new))
    | none => ts

/-- Append a child to the node at a path, as `appendTo` does. -/
def appendChildAt (ts : List Dom) (p : Path) (x : Dom) : List Dom :=
  modifyNodeAt ts p (fun t => Dom.elem t.ed (t.children ++ [x]))

/-- jQuery `addClass`: append the class unless it is already present. -/
def addClassE (c : String) (e : ElemData) : ElemData :=
  if e.classes.contains c then e else { e with classes := e.classes ++ [c] }

/-- jQuery `removeClass`: drop every occurrence of the class. -/
def removeClassE (c : String) (e : ElemData) : ElemData :=
  { e with classes := e.classes.filter (fun x => x != c) }

/-- Add a class to the node at a path. -/
def addClassAt (ts : List Dom) (p : Path) (c : String) : List Dom :=
  modifyNodeAt ts p (Dom.mapEd (addClassE c))

/-- Remove a class from the node at a path. -/
def removeClassAt (ts : List Dom) (p : Path) (c : String) : List Dom :=
  modifyNodeAt ts p (Dom.mapEd (removeClassE c))

/-- Whether the node at a path carries a class. -/
def hasClassAt (ts : List Dom) (p : Path) (c : String) : Bool :=
  match getNode ts p with
  | some t => t.ed.classes.contains c
  | none => false

/-- The ancestor chain of a node, the node itself first: all nonempty
prefixes of its path, longest first. -/
def ancestors (p : Path) : List Path :=
  (List.range p.length).map (fun k => p.take (p.length - k))

/-- Whether the node at a path exists and satisfies a selector. -/
def matchesAt (ts : List Dom) (p : Path) (sel : Selector) : Bool :=
  match getNode ts p with
  | some t => sel.matches t.ed
  | none => false

/-- jQuery `closest`: the nearest ancestor (the element itself included)
satisfying a selector. -/
def closest (ts : List Dom) (p : Path) (sel : Selector) : Option Path :=
  (ancestors p).find? (fun q => matchesAt ts q sel)

/-- Whether any element of the forest (descendants included) satisfies a
selector — nonemptiness of the matched set of `$(selector)`. -/
def anyMatch (sel : Selector) : List Dom → Bool
  | [] => false
  | Dom.elem ed cs :: ts =>
    sel.matches ed || anyMatch sel cs || anyMatch sel ts

/-- jQuery `$(new).replaceAll(selector)` on the document: every outermost
matching element is replaced by the new nodes (matches nested inside a
replaced element are detached with it, so only outermost matches affect the
document); with no match the document is unchanged. -/
def replaceMatching (sel : Selector) (new : List Dom) : List Dom → List Dom
  | [] => []
  | Dom.elem ed cs :: ts =>
    if sel.matches ed then new ++ replaceMatching sel new ts
    else Dom.elem ed (replaceMatching sel new cs) :: replaceMatching sel new ts

/-- Types jQuery `serialize` skips even on named inputs. -/
def excludedType (ty : String) : Bool :=
  ty == "submit" || ty == "button" || ty == "image" || ty == "reset" || ty == "file"

/-- Types serialized only when checked. -/
def checkableType (ty : String) : Bool :=
  ty == "checkbox" || ty == "radio"

/-- Tags jQuery `serialize` considers. -/
def fieldTag (t : String) : Bool :=
  t == "input" || t == "select" || t == "textarea" || t == "keygen"

/-- Whether jQuery `serialize` includes one element: a named, enabled field
of a serializable tag and type, checked if checkable. -/
def serializableField (e : ElemData) : Bool :=
  fieldTag e.tag
    && ((e.attr "name").getD "") != ""
    && (e.attr "disabled").isNone
    && !excludedType ((e.attr "type").getD "")
    && (!checkableType ((e.attr "type").getD "") || (e.attr "checked").isSome)

/-- Serializable fields of a forest in document order. -/
def collectFields : List Dom → List ElemData
  | [] => []
  | Dom.elem ed cs :: ts =>
    (if serializableField ed then [ed] else []) ++ collectFields cs ++ collectFields ts

/-- jQuery `$form.serialize()`: the name/value pairs of the form's
serializable fields in document order. -/
def serializeForm (form : Dom) : List (String × String) :=
  (collectFields form.children).map
    (fun e => ((e.attr "name").getD "", (e.attr "value").getD ""))

/-- The hidden input the button click handler synthesizes. -/
def hiddenInput (n v : String) : Dom :=
  Dom.elem { tag := "input", attrs := [("type", "hidden"), ("name", n), ("value", v)], classes := [] } []

/-- History state shape `\x7b selector, data \x7d`; `selector` is the raw
`data-replace` value (`none` when absent or empty, which is falsy), `data`
the parsed markup. -/
structure HistState where
  selector : Option Selector
  data : List Dom
  deriving Repr, DecidableEq

/-- Where a notification is dispatched. -/
inductive NotifyTarget where
  | container (p : Path)
  | newContent
  | restored
  deriving Repr, DecidableEq

/-- Observable effects of the controller, in trace order. -/
inductive Effect where
  | preventDefault
  | request (url : String) (method : String) (payload : Option (List (String × String)))
  | notify (t : NotifyTarget) (name : String)
  | histReplace (st : HistState)
  | histPush (st : HistState) (url : String)
  deriving Repr, DecidableEq

/-- The per-call success callback: absent (forms), or the history-writing
closure the link click handler installs. -/
inductive SuccessCb where
  | noCb
  | pushCb (pushstate : Bool) (selector : Option Selector) (href : String)
  deriving Repr, DecidableEq

/-- Whether the callback is the history-writing closure with pushstate on. -/
def isEnabledPush : SuccessCb → Bool
  | .pushCb true _ _ => true
  | _ => false

/-- The `options` argument of `ajaxReplace`. -/
structure Options where
  selector : Option Selector
  method : Option String
  data : Option (List (String × String))
  success : SuccessCb
  deriving Repr, DecidableEq

/-- The state of an in-flight operation between trigger and settlement:
the resolved container (`none` when the selector matched no ancestor) and
the success callback. -/
structure Pending where
  container : Option Path
  success : SuccessCb
  deriving Repr, DecidableEq

/-- Outcome of the asynchronous request. -/
inductive Outcome where
  | success (body : List Dom)
  | failure
  deriving Repr, DecidableEq

/-- The double-submission guard `this.closest('.replace-active').length`. -/
def activeGuard (ts : List Dom) (self : Path) : Bool :=
  (closest ts self (Selector.cls "replace-active")).isSome

/-- Synchronous part of `$.fn.ajaxReplace` (src/replace.js lines 32-40):
guard check, container resolution, marking, `replace:start`, and issuing the
request.  Returns the new document, the effect trace, and the pending
operation (`none` when the guard suppressed the call). -/
def ajaxReplaceTrigger (ts : List Dom) (self : Path) (url : String) (opts : Options) :
    List Dom × List Effect × Option Pending :=
  if activeGuard ts self then (ts, [], none)
  else
    match closest ts self (opts.selector.getD Selector.univ) with
    | some p =>
      (addClassAt ts p "replace-active",
       [Effect.notify (NotifyTarget.container p) "replace:start",
        Effect.request url (opts.method.getD "GET") opts.data],
       some { container := some p, success := opts.success })
    | none =>
      (ts,
       [Effect.request url (opts.method.getD "GET") opts.data],
       some { container := none, success := opts.success })

/-- The `always` callback (lines 41-43): unconditionally clear the marker
and emit `replace:always` (which dispatches nothing on an empty container). -/
def settleAlways (ts : List Dom) (pend : Pending) : List Dom × List Effect :=
  match pend.container with
  | some p =>
    (removeClassAt ts p "replace-active",
     [Effect.notify (NotifyTarget.container p) "replace:always"])
  | none => (ts, [])

/-- Run the per-call success callback (lines 83-94 for links).  With
pushstate on it reads `$container[0].outerHTML`; when the container resolved
to nothing `$container[0]` is `undefined` and the read throws, modelled by
`Except.error ()`. -/
def runSuccessCb (ts : List Dom) (container : Option Path) (cb : SuccessCb)
    (body : List Dom) : Except Unit (List Effect) :=
  match cb with
  | SuccessCb.noCb => Except.ok []
  | SuccessCb.pushCb ps sel href =>
    if ps then
      match container with
      | some p =>
        match getNode ts p with
        | some t =>
          Except.ok [Effect.histReplace { selector := sel, data := [t] },
                     Effect.histPush { selector := sel, data := body } href]
        | none => Except.error ()
      | none => Except.error ()
    else Except.ok []

/-- Settlement of the request (lines 41-52): the `always` callback runs
first (it was attached first), then on success the success callback, the
`replaceAll` swap and `replace:done` on the inserted content (dispatched
only when something was inserted), and on failure `replace:fail` on the
still-present container. -/
def ajaxReplaceSettle (ts : List Dom) (pend : Pending) (out : Outcome) :
    Except Unit (List Dom × List Effect) :=
  let a := settleAlways ts pend
  match out with
  | Outcome.failure =>
    match pend.container with
    | some p =>
      Except.ok (a.1, a.2 ++ [Effect.notify (NotifyTarget.container p) "replace:fail"])
    | none => Except.ok (a.1, a.2)
  | Outcome.success body =>
    match runSuccessCb a.1 pend.container pend.success body with
    | Except.error e => Except.error e
    | Except.ok cbEffs =>
      match pend.container with
      | some p =>
        Except.ok (spliceAt a.1 p body,
          a.2 ++ cbEffs ++
            (if body.isEmpty then []
             else [Effect.notify NotifyTarget.newContent "replace:done"]))
      | none => Except.ok (a.1, a.2 ++ cbEffs)

/-- Environment: whether `window.history && history.pushState` holds. -/
structure EnvInfo where
  pushStateSupported : Bool
  deriving Repr, DecidableEq

/-- Modifier keys of a click event. -/
structure ClickInfo where
  shiftKey : Bool
  metaKey : Bool
  deriving Repr, DecidableEq

/-- Interpreted attributes of an annotated link: `href`, the `data-replace`
value (`none` when absent or empty) and the truthiness of
`$link.data('pushstate')`. -/
structure LinkInfo where
  href : String
  replaceSel : Option Selector
  pushstate : Bool
  deriving Repr, DecidableEq

/-- Interpreted attributes of an annotated form. -/
structure FormInfo where
  action : String
  replaceSel : Option Selector
  method : Option String
  deriving Repr, DecidableEq

/-- The `a[data-replace]` click handler (lines 64-96): pushstate gating,
then `preventDefault`, then `ajaxReplace` with the history-writing success
callback. -/
def linkClickTrigger (env : EnvInfo) (ts : List Dom) (self : Path) (link : LinkInfo)
    (ev : ClickInfo) : List Dom × List Effect × Option Pending :=
  if link.pushstate && !env.pushStateSupported then (ts, [], none)
  else if link.pushstate && (ev.shiftKey || ev.metaKey) then (ts, [], none)
  else
    let r := ajaxReplaceTrigger ts self link.href
      { selector := link.replaceSel, method := none, data := none,
        success := SuccessCb.pushCb link.pushstate link.replaceSel link.href }
    (r.1, Effect.preventDefault :: r.2.1, r.2.2)

/-- The `form[data-replace]` submit handler (lines 98-107): `preventDefault`,
then `ajaxReplace` with the form's action, method and serialized fields. -/
def formSubmitTrigger (ts : List Dom) (self : Path) (form : FormInfo) :
    List Dom × List Effect × Option Pending :=
  let payload :=
    match getNode ts self with
    | some t => serializeForm t
    | none => []
  let r := ajaxReplaceTrigger ts self form.action
    { selector := form.replaceSel, method := form.method, data := some payload,
      success := SuccessCb.noCb }
  (r.1, Effect.preventDefault :: r.2.1, r.2.2)

/-- Delegated-selector check for `form[data-replace] button`: the element is
a `button` with a proper ancestor matching `form[data-replace]`. -/
def buttonDispatchOk (ts : List Dom) (self : Path) : Bool :=
  (match getNode ts self with
   | some t => t.ed.tag == "button"
   | none => false)
  && (ancestors self.dropLast).any
       (fun q => matchesAt ts q (Selector.tagAttr "form" "data-replace"))

/-- The button click handler (lines 115-121): append a hidden input carrying
the clicked button's name and value to its closest form. -/
def buttonClickTrigger (ts : List Dom) (self : Path) : List Dom :=
  if buttonDispatchOk ts self then
    match getNode ts self, closest ts self (Selector.tag "form") with
    | some btn, some fp =>
      appendChildAt ts fp
        (hiddenInput ((btn.ed.attr "name").getD "") ((btn.ed.attr "value").getD ""))
    | _, _ => ts
  else ts

/-- The document after `k` clicks on the same button. -/
def clickN (ts : List Dom) (self : Path) : Nat → List Dom
  | 0 => ts
  | k + 1 => buttonClickTrigger (clickN ts self k) self

/-- The `popstate` handler (lines 55-62): when the navigation state is
present and carries a truthy selector, swap every match for the stored
markup and trigger `replace:always` then `replace:done` on the inserted
content (nothing is dispatched when nothing was inserted). -/
def popstateHandler (ts : List Dom) (state : Option HistState) : List Dom × List Effect :=
  match state with
  | none => (ts, [])
  | some st =>
    match st.selector with
    | none => (ts, [])
    | some sel =>
      (replaceMatching sel st.data ts,
       if anyMatch sel ts && !st.data.isEmpty then
         [Effect.notify NotifyTarget.restored "replace:always",
          Effect.notify NotifyTarget.restored "replace:done"]
       else [])

/-- Whether an effect is a history-state write. -/
def isHistEffect : Effect → Bool
  | Effect.histReplace _ => true
  | Effect.histPush _ _ => true
  | _ => false

/-- Whether an effect is a network request. -/
def isRequestEffect : Effect → Bool
  | Effect.request _ _ _ => true
  | _ => false

/-- Whether an effect is a `replace:start` notification. -/
def isStartNotify : Effect → Bool
  | Effect.notify _ "replace:start" => true
  | _ => false

/-! Concrete example documents and inputs, used to instantiate the theorems
below at executable inputs. -/

/-- Example container node: one `div.container` wrapping an annotated link. -/
def exContainer : Dom :=
  Dom.elem { tag := "div", attrs := [], classes := ["container"] }
    [Dom.elem
      { tag := "a", attrs := [("href", "/foo"), ("data-replace", ".container")], classes := [] }
      []]

/-- Example document holding only the example container. -/
def exDoc : List Dom := [exContainer]

/-- The example container node with the in-progress marker already set. -/
def exContainerActive : Dom :=
  Dom.elem { tag := "div", attrs := [], classes := ["container", "replace-active"] }
    [Dom.elem
      { tag := "a", attrs := [("href", "/foo"), ("data-replace", ".container")], classes := [] }
      []]

/-- The example document with the in-progress marker already on the container. -/
def exDocActive : List Dom := [exContainerActive]

/-- Example document holding only one matching container with no children. -/
def exSingle : List Dom :=
  [Dom.elem { tag := "div", attrs := [], classes := ["container"] } []]

/-- Example document holding only an annotated link whose selector matches
no ancestor. -/
def exLinkOnly : List Dom :=
  [Dom.elem
    { tag := "a", attrs := [("href", "/foo"), ("data-replace", ".missing")], classes := [] }
    []]

/-- Example parsed response body. -/
def exP : List Dom :=
  [Dom.elem { tag := "p", attrs := [], classes := [] } []]

/-- Example link info without push state. -/
def exLink : LinkInfo :=
  { href := "/foo", replaceSel := some (Selector.cls "container"), pushstate := false }

/-- Example link info with push state. -/
def exLinkPush : LinkInfo :=
  { href := "/foo", replaceSel := some (Selector.cls "container"), pushstate := true }

/-- Example push-state link whose selector matches nothing. -/
def exLinkMissing : LinkInfo :=
  { href := "/foo", replaceSel := some (Selector.cls "missing"), pushstate := true }

/-- Example environment supporting push state. -/
def exEnv : EnvInfo := { pushStateSupported := true }

/-- Example plain click without modifier keys. -/
def exClick : ClickInfo := { shiftKey := false, metaKey := false }

/-- Element data of the example form. -/
def exFormEd : ElemData :=
  { tag := "form", attrs := [("action", "/bar"), ("method", "POST"), ("data-replace", "*")],
    classes := [] }

/-- Element data of the example button. -/
def exBtnEd : ElemData :=
  { tag := "button", attrs := [("name", "b"), ("value", "two")], classes := [] }

/-- Children of the example form: a named text input and a named button. -/
def exFormChildren : List Dom :=
  [Dom.elem
    { tag := "input", attrs := [("type", "text"), ("name", "q"), ("value", "hi")],
      classes := [] } [],
   Dom.elem exBtnEd []]

/-- Example form document. -/
def exForm : List Dom := [Dom.elem exFormEd exFormChildren]

/-- The example form document after one button click appended the
synthesized hidden input. -/
def exFormClicked : List Dom :=
  [Dom.elem exFormEd (exFormChildren ++ [hiddenInput "b" "two"])]

/-- Example form info for the example form. -/
def exFormInfo : FormInfo :=
  { action := "/bar", replaceSel := some Selector.univ, method := some "POST" }

/-- Example options resolving the example container. -/
def exOpts : Options :=
  { selector := some (Selector.cls "container"), method := none, data := none,
    success := SuccessCb.noCb }

/-- Example options whose selector matches nothing. -/
def exOptsMissing : Options :=
  { selector := some (Selector.cls "missing"), method := none, data := none,
    success := SuccessCb.noCb }

/-! Helper lemmas about paths, node access and node rewriting. -/

theorem getNode_nil : ∀ (p : Path), getNode ([] : List Dom) p = none
  | [] => rfl
  | [_] => rfl
  | _ :: _ :: _ => rfl

theorem getNode_append_path (q : Path) (hq : q ≠ []) :
    ∀ (p : Path) (ts : List Dom), p ≠ [] →
      getNode ts (p ++ q) = (getNode ts p).bind (fun t => getNode t.children q)
  | [], _, hp => absurd rfl hp
  | [i], ts, _ => by
    match q, hq with
    | j :: r, _ =>
      cases h : ts[i]? with
      | none => simp [getNode, h]
      | some t => simp [getNode, h]
  | i :: j :: p', ts, _ => by
    cases h : ts[i]? with
    | none => simp [getNode, h]
    | some t =>
      have ih := getNode_append_path q hq (j :: p') t.children (by simp)
      simp only [List.cons_append, getNode, h]
      exact ih

theorem getNode_modify_self :
    ∀ (p : Path) (ts : List Dom) (f : Dom → Dom), p ≠ [] →
      getNode (modifyNodeAt ts p f) p = (getNode ts p).map f
  | [], _, _, hp => absurd rfl hp
  | [i], ts, f, _ => by
    cases h : ts[i]? with
    | none => simp [modifyNodeAt, getNode, h]
    | some t =>
      have hlen : i < ts.length := by
        rcases List.getElem?_eq_some_iff.mp h with ⟨hl, _⟩
        exact hl
      simp [modifyNodeAt, getNode, h, List.getElem?_set_self (by simpa using hlen)]
  | i :: j :: p', ts, f, _ => by
    cases h : ts[i]? with
    | none => simp [modifyNodeAt, getNode, h]
    | some t =>
      have hlen : i < ts.length := by
        rcases List.getElem?_eq_some_iff.mp h with ⟨hl, _⟩
        exact hl
      cases t with
      | elem e cs =>
        have ih := getNode_modify_self (j :: p') cs f (by simp)
        simp [modifyNodeAt, getNode, h, List.getElem?_set_self (by simpa using hlen),
          Dom.children, Dom.ed, ih]

theorem set_self_of_getElem? {l : List Dom} {i : Nat} {x : Dom} (h : l[i]? = some x) :
    l.set i x = l := by
  induction l generalizing i with
  | nil => simp at h
  | cons a l ih =>
    cases i with
    | zero => simp at h; simp [h]
    | succ n => simp at h; simp [List.set_cons_succ, ih h]

theorem modify_modify :
    ∀ (p : Path) (ts : List Dom) (f g : Dom → Dom),
      modifyNodeAt (modifyNodeAt ts p f) p g = modifyNodeAt ts p (fun t => g (f t))
  | [], _, _, _ => rfl
  | [i], ts, f, g => by
    cases h : ts[i]? with
    | none => simp [modifyNodeAt, h]
    | some t =>
      have hlen : i < ts.length := by
        rcases List.getElem?_eq_some_iff.mp h with ⟨hl, _⟩
        exact hl
      simp [modifyNodeAt, h, List.getElem?_set_self (by simpa using hlen), List.set_set]
  | i :: j :: p', ts, f, g => by
    cases h : ts[i]? with
    | none => simp [modifyNodeAt, h]
    | some t =>
      have hlen : i < ts.length := by
        rcases List.getElem?_eq_some_iff.mp h with ⟨hl, _⟩
        exact hl
      cases t with
      | elem e cs =>
        have ih := modify_modify (j :: p') cs f g
        simp [modifyNodeAt, h, List.getElem?_set_self (by simpa using hlen), List.set_set,
          Dom.ed, Dom.children, ih]

theorem modify_id :
    ∀ (p : Path) (ts : List Dom) (f : Dom → Dom),
      (∀ t, getNode ts p = some t → f t = t) → modifyNodeAt ts p f = ts
  | [], _, _, _ => rfl
  | [i], ts, f, h => by
    cases hi : ts[i]? with
    | none => simp [modifyNodeAt, hi]
    | some t =>
      have : f t = t := h t (by simp [getNode, hi])
      simp [modifyNodeAt, hi, this, set_self_of_getElem? hi]
  | i :: j :: p', ts, f, h => by
    cases hi : ts[i]? with
    | none => simp [modifyNodeAt, hi]
    | some t =>
      have hsub : modifyNodeAt t.children (j :: p') f = t.children :=
        modify_id (j :: p') t.children f (fun t' ht' => h t' (by simp [getNode, hi, ht']))
      have : Dom.elem t.ed (modifyNodeAt t.children (j :: p') f) = t := by
        cases t with
        | elem e cs => simp [Dom.ed, Dom.children] at hsub ⊢; exact hsub
      simp [modifyNodeAt, hi, this, set_self_of_getElem? hi]

theorem getNode_modify_prefix_ed :
    ∀ (r p : Path) (ts : List Dom) (f : Dom → Dom),
      (∀ t, (f t).ed = t.ed) → r <+: p →
      (getNode (modifyNodeAt ts p f) r).map Dom.ed = (getNode ts r).map Dom.ed
  | [], _, ts, f, _, _ => by simp [getNode]
  | i :: r', p, ts, f, hf, hr => by
    match p with
    | [] => exact absurd hr (by simp)
    | i2 :: p' =>
      have hii : i = i2 ∧ r' <+: p' := by simpa using hr
      obtain ⟨rfl, hr'⟩ := hii
      match r' with
      | [] =>
        match p' with
        | [] =>
          cases h : ts[i]? with
          | none => simp [modifyNodeAt, h]
          | some t =>
            have hlen : i < ts.length := by
              rcases List.getElem?_eq_some_iff.mp h with ⟨hl, _⟩
              exact hl
            simp [modifyNodeAt, getNode, h,
              List.getElem?_set_self (by simpa using hlen), hf t]
        | j :: p'' =>
          cases h : ts[i]? with
          | none => simp [modifyNodeAt, h]
          | some t =>
            cases t with
            | elem e cs =>
              have hlen : i < ts.length := by
                rcases List.getElem?_eq_some_iff.mp h with ⟨hl, _⟩
                exact hl
              simp [modifyNodeAt, getNode, h,
                List.getElem?_set_self (by simpa using hlen), Dom.ed]
      | k :: r'' =>
        match p' with
        | [] => exact absurd hr' (by simp)
        | j :: p'' =>
          have hkj : k = j ∧ r'' <+: p'' := by simpa using hr'
          obtain ⟨rfl, hr''⟩ := hkj
          cases h : ts[i]? with
          | none => simp [modifyNodeAt, getNode, h]
          | some t =>
            cases t with
            | elem e cs =>
              have hlen : i < ts.length := by
                rcases List.getElem?_eq_some_iff.mp h with ⟨hl, _⟩
                exact hl
              have ih := getNode_modify_prefix_ed (k :: r'') (k :: p'') cs f hf
                (by simp [hr''])
              simp [modifyNodeAt, getNode, h,
                List.getElem?_set_self (by simpa using hlen), Dom.children, Dom.ed, ih]

theorem matchesAt_congr_ed {ts ts' : List Dom} {r : Path} (sel : Selector)
    (h : (getNode ts' r).map Dom.ed = (getNode ts r).map Dom.ed) :
    matchesAt ts' r sel = matchesAt ts r sel := by
  unfold matchesAt
  cases h1 : getNode ts r with
  | none => cases h2 : getNode ts' r with
    | none => rfl
    | some b => simp [h1, h2] at h
  | some a => cases h2 : getNode ts' r with
    | none => simp [h1, h2] at h
    | some b =>
      simp [h1, h2] at h
      simp [h]

/-! Helper lemmas about classes. -/

theorem contains_addClassE (e : ElemData) (c : String) :
    ((addClassE c e).classes).contains c = true := by
  unfold addClassE
  by_cases h : c ∈ e.classes
  · simp [List.contains, List.elem_eq_mem, h]
  · simp [List.contains, List.elem_eq_mem, h]

theorem contains_removeClassE (e : ElemData) (c : String) :
    ((removeClassE c e).classes).contains c = false := by
  unfold removeClassE
  simp [List.contains, List.elem_eq_mem, List.mem_filter]

theorem removeClassE_addClassE (e : ElemData) (c : String)
    (h : e.classes.contains c = false) : removeClassE c (addClassE c e) = e := by
  have hmem : c ∉ e.classes := by simpa [List.contains, List.elem_eq_mem] using h
  unfold addClassE removeClassE
  rw [if_neg (by simpa [List.contains, List.elem_eq_mem] using hmem)]
  have hfil : (e.classes ++ [c]).filter (fun x => x != c) = e.classes := by
    rw [List.filter_append]
    have h1 : e.classes.filter (fun x => x != c) = e.classes :=
      List.filter_eq_self.mpr (fun a ha => by
        simp
        intro haeq
        exact hmem (haeq ▸ ha))
    have h2 : ([c] : List String).filter (fun x => x != c) = [] := by simp
    rw [h1, h2, List.append_nil]
  simp only [hfil]

theorem removeClassE_id (e : ElemData) (c : String)
    (h : e.classes.contains c = false) : removeClassE c e = e := by
  have hmem : c ∉ e.classes := by simpa [List.contains, List.elem_eq_mem] using h
  unfold removeClassE
  have h1 : e.classes.filter (fun x => x != c) = e.classes :=
    List.filter_eq_self.mpr (fun a ha => by
      simp
      intro haeq
      exact hmem (haeq ▸ ha))
  simp only [h1]

theorem hasClassAt_addClassAt (ts : List Dom) (p : Path) (c : String)
    (hp : p ≠ []) (h : (getNode ts p).isSome = true) :
    hasClassAt (addClassAt ts p c) p c = true := by
  unfold hasClassAt addClassAt
  rw [getNode_modify_self p ts _ hp]
  cases ht : getNode ts p with
  | none => simp [ht] at h
  | some t =>
    cases t with
    | elem e cs =>
      have hc := contains_addClassE e c
      simpa [Dom.mapEd, Dom.ed, List.contains, List.elem_eq_mem] using hc

theorem hasClassAt_removeClassAt (ts : List Dom) (p : Path) (c : String) :
    hasClassAt (removeClassAt ts p c) p c = false := by
  cases p with
  | nil => simp [hasClassAt, removeClassAt, modifyNodeAt, getNode]
  | cons i p' =>
    unfold hasClassAt removeClassAt
    rw [getNode_modify_self (i :: p') ts _ (by simp)]
    cases ht : getNode ts (i :: p') with
    | none => simp
    | some t =>
      cases t with
      | elem e cs =>
        have hc := contains_removeClassE e c
        simpa [Dom.mapEd, Dom.ed, List.contains, List.elem_eq_mem] using hc

theorem removeClassAt_addClassAt (ts : List Dom) (p : Path) (c : String)
    (h : hasClassAt ts p c = false) :
    removeClassAt (addClassAt ts p c) p c = ts := by
  unfold removeClassAt addClassAt
  rw [modify_modify]
  apply modify_id
  intro t ht
  cases t with
  | elem e cs =>
    have : e.classes.contains c = false := by
      unfold hasClassAt at h
      rw [ht] at h
      simpa [Dom.ed] using h
    simp [Dom.mapEd, removeClassE_addClassE ⟨e.tag, e.attrs, e.classes⟩ c this]

theorem removeClassAt_id (ts : List Dom) (p : Path) (c : String)
    (h : hasClassAt ts p c = false) : removeClassAt ts p c = ts := by
  unfold removeClassAt
  apply modify_id
  intro t ht
  cases t with
  | elem e cs =>
    have : e.classes.contains c = false := by
      unfold hasClassAt at h
      rw [ht] at h
      simpa [Dom.ed] using h
    simp [Dom.mapEd, removeClassE_id ⟨e.tag, e.attrs, e.classes⟩ c this]

/-! Helper lemmas about ancestors and closest. -/

theorem prefix_of_mem_ancestors {r p : Path} (hr : r ∈ ancestors p) :
    r <+: p ∧ r ≠ [] := by
  unfold ancestors at hr
  simp at hr
  rcases hr with ⟨k, hk, rfl⟩
  constructor
  · exact List.take_prefix _ _
  · have : (p.take (p.length - k)).length = p.length - k := by
      rw [List.length_take]
      omega
    intro hnil
    rw [hnil] at this
    simp at this
    omega

theorem self_mem_ancestors {p : Path} (hp : p ≠ []) : p ∈ ancestors p := by
  unfold ancestors
  simp
  refine ⟨0, ?_, by simp⟩
  have : 0 < p.length := List.length_pos.mpr hp
  omega

theorem closest_spec {ts : List Dom} {p r : Path} {sel : Selector}
    (h : closest ts p sel = some r) :
    r ∈ ancestors p ∧ matchesAt ts r sel = true := by
  unfold closest at h
  exact ⟨List.mem_of_find?_eq_some h, by simpa using List.find?_some h⟩

theorem closest_none_spec {ts : List Dom} {p : Path} {sel : Selector}
    (h : closest ts p sel = none) :
    ∀ r ∈ ancestors p, matchesAt ts r sel = false := by
  unfold closest at h
  intro r hr
  have := List.find?_eq_none.mp h r hr
  simpa using this

theorem matchesAt_getNode {ts : List Dom} {r : Path} {sel : Selector}
    (h : matchesAt ts r sel = true) :
    ∃ t, getNode ts r = some t ∧ sel.matches t.ed = true := by
  unfold matchesAt at h
  cases ht : getNode ts r with
  | none => rw [ht] at h; simp at h
  | some t => rw [ht] at h; exact ⟨t, rfl, h⟩

theorem guard_no_class {ts : List Dom} {self p : Path}
    (hg : activeGuard ts self = false) (hp : p ∈ ancestors self) :
    hasClassAt ts p "replace-active" = false := by
  unfold activeGuard at hg
  have hnone : closest ts self (Selector.cls "replace-active") = none := by
    cases hcl : closest ts self (Selector.cls "replace-active") with
    | none => rfl
    | some r => rw [hcl] at hg; simp at hg
  have hm := closest_none_spec hnone p hp
  unfold hasClassAt
  cases ht : getNode ts p with
  | none => rfl
  | some t =>
    unfold matchesAt at hm
    rw [ht] at hm
    simpa [Selector.matches] using hm

theorem findCongr {α : Type} (f g : α → Bool) :
    ∀ (l : List α), (∀ a ∈ l, f a = g a) → l.find? f = l.find? g
  | [], _ => rfl
  | a :: l, h => by
    have ha := h a (by simp)
    cases hfa : f a with
    | true => simp [List.find?, hfa, ← ha, hfa]
    | false =>
      have hl := findCongr f g l (fun x hx => h x (by simp [hx]))
      simp [List.find?, hfa, ← ha, hfa, hl]

theorem anyCongr {α : Type} (f g : α → Bool) :
    ∀ (l : List α), (∀ a ∈ l, f a = g a) → l.any f = l.any g
  | [], _ => rfl
  | a :: l, h => by
    have ha := h a (by simp)
    have hl := anyCongr f g l (fun x hx => h x (by simp [hx]))
    simp [List.any, ha, hl]

/-! Helper lemmas about matchesAt at shifted paths. -/

theorem matchesAt_cons_succ (t : Dom) (ts : List Dom) (i : Nat) (q : Path) (sel : Selector) :
    matchesAt (t :: ts) ((i + 1) :: q) sel = matchesAt ts (i :: q) sel := by
  cases q with
  | nil => simp [matchesAt, getNode]
  | cons j r => simp [matchesAt, getNode]

theorem matchesAt_cons_zero_nil (ed : ElemData) (cs ts : List Dom) (sel : Selector) :
    matchesAt (Dom.elem ed cs :: ts) [0] sel = sel.matches ed := by
  simp [matchesAt, getNode, Dom.ed]

theorem matchesAt_cons_zero_deep (ed : ElemData) (cs ts : List Dom) (j : Nat) (q : Path)
    (sel : Selector) :
    matchesAt (Dom.elem ed cs :: ts) (0 :: j :: q) sel = matchesAt cs (j :: q) sel := by
  simp [matchesAt, getNode, Dom.children]

theorem matchesAt_empty (ts : List Dom) (sel : Selector) : matchesAt ts [] sel = false := by
  simp [matchesAt, getNode]

theorem anyMatch_of_matchesAt (sel : Selector) :
    ∀ (ts : List Dom) (p : Path), matchesAt ts p sel = true → anyMatch sel ts = true
  | [], p, h => by
    unfold matchesAt at h
    rw [getNode_nil] at h
    simp at h
  | Dom.elem ed cs :: ts', p, h => by
    match p with
    | [] => rw [matchesAt_empty] at h; simp at h
    | [0] =>
      rw [matchesAt_cons_zero_nil] at h
      simp [anyMatch, h]
    | 0 :: j :: r =>
      rw [matchesAt_cons_zero_deep] at h
      have := anyMatch_of_matchesAt sel cs (j :: r) h
      simp [anyMatch, this]
    | (i + 1) :: r =>
      rw [matchesAt_cons_succ] at h
      have := anyMatch_of_matchesAt sel ts' (i :: r) h
      simp [anyMatch, this]

/-! Helper lemmas about replaceMatching. -/

theorem replaceMatching_id (sel : Selector) (new : List Dom) :
    ∀ (ts : List Dom), (∀ q, matchesAt ts q sel = false) → replaceMatching sel new ts = ts
  | [], _ => by unfold replaceMatching; rfl
  | Dom.elem ed cs :: ts', h => by
    have h0 : sel.matches ed = false := by
      have := h [0]
      rwa [matchesAt_cons_zero_nil] at this
    have hcs := replaceMatching_id sel new cs (fun q => by
      cases q with
      | nil => exact matchesAt_empty cs sel
      | cons j r =>
        have := h (0 :: j :: r)
        rwa [matchesAt_cons_zero_deep] at this)
    have hts := replaceMatching_id sel new ts' (fun q => by
      cases q with
      | nil => exact matchesAt_empty ts' sel
      | cons k r =>
        have := h ((k + 1) :: r)
        rwa [matchesAt_cons_succ] at this)
    simp [replaceMatching, h0, hcs, hts]

theorem spliceAt_cons_succ_nil (t : Dom) (ts : List Dom) (i : Nat) (new : List Dom) :
    spliceAt (t :: ts) [i + 1] new = t :: spliceAt ts [i] new := by
  unfold spliceAt
  by_cases h : i < ts.length
  · rw [if_pos (by simp; omega), if_pos h]
    simp
  · rw [if_neg (by simp; omega), if_neg h]

theorem spliceAt_cons_succ_cons (t : Dom) (ts : List Dom) (i j : Nat) (r : Path)
    (new : List Dom) :
    spliceAt (t :: ts) ((i + 1) :: j :: r) new = t :: spliceAt ts (i :: j :: r) new := by
  unfold spliceAt
  cases h : ts[i]? with
  | none => simp [h]
  | some u => simp [h]

theorem replaceMatching_eq_spliceAt (sel : Selector) (new : List Dom) :
    ∀ (ts : List Dom) (p : Path), matchesAt ts p sel = true →
      (∀ q, matchesAt ts q sel = true → p <+: q) →
      replaceMatching sel new ts = spliceAt ts p new
  | [], p, hm, _ => by
    unfold matchesAt at hm
    rw [getNode_nil] at hm
    simp at hm
  | Dom.elem ed cs :: ts', p, hm, houter => by
    match p with
    | [] => rw [matchesAt_empty] at hm; simp at hm
    | [0] =>
      have hed : sel.matches ed = true := by rwa [matchesAt_cons_zero_nil] at hm
      have hts' : replaceMatching sel new ts' = ts' :=
        replaceMatching_id sel new ts' (fun q => by
          cases q with
          | nil => exact matchesAt_empty ts' sel
          | cons k r =>
            cases hv : matchesAt ts' (k :: r) sel with
            | false => rfl
            | true =>
              have := houter ((k + 1) :: r) (by rwa [matchesAt_cons_succ])
              simp at this)
      simp [replaceMatching, hed, spliceAt, hts']
    | 0 :: j :: r =>
      have hed : sel.matches ed = false := by
        cases hv : sel.matches ed with
        | false => rfl
        | true =>
          have := houter [0] (by rwa [matchesAt_cons_zero_nil])
          simp at this
      have hcs : matchesAt cs (j :: r) sel = true := by
        rwa [matchesAt_cons_zero_deep] at hm
      have houter' : ∀ q, matchesAt cs q sel = true → (j :: r) <+: q := by
        intro q hq
        match q with
        | [] => rw [matchesAt_empty] at hq; simp at hq
        | k :: r' =>
          have := houter (0 :: k :: r') (by rwa [matchesAt_cons_zero_deep])
          simpa using this
      have hts' : replaceMatching sel new ts' = ts' :=
        replaceMatching_id sel new ts' (fun q => by
          cases q with
          | nil => exact matchesAt_empty ts' sel
          | cons k r' =>
            cases hv : matchesAt ts' (k :: r') sel with
            | false => rfl
            | true =>
              have := houter ((k + 1) :: r') (by rwa [matchesAt_cons_succ])
              simp at this)
      have ih := replaceMatching_eq_spliceAt sel new cs (j :: r) hcs houter'
      simp [replaceMatching, hed, hts', ih, spliceAt, Dom.ed, Dom.children]
    | (i + 1) :: r =>
      have hed : sel.matches ed = false := by
        cases hv : sel.matches ed with
        | false => rfl
        | true =>
          have := houter [0] (by rwa [matchesAt_cons_zero_nil])
          simp at this
      have hcs0 : replaceMatching sel new cs = cs :=
        replaceMatching_id sel new cs (fun q => by
          cases q with
          | nil => exact matchesAt_empty cs sel
          | cons j r' =>
            cases hv : matchesAt cs (j :: r') sel with
            | false => rfl
            | true =>
              have := houter (0 :: j :: r') (by rwa [matchesAt_cons_zero_deep])
              simp at this)
      have hm' : matchesAt ts' (i :: r) sel = true := by rwa [matchesAt_cons_succ] at hm
      have houter'' : ∀ q, matchesAt ts' q sel = true → (i :: r) <+: q := by
        intro q hq
        match q with
        | [] => rw [matchesAt_empty] at hq; simp at hq
        | k :: r' =>
          have := houter ((k + 1) :: r') (by rwa [matchesAt_cons_succ])
          simpa using this
      have ih := replaceMatching_eq_spliceAt sel new ts' (i :: r) hm' houter''
      cases r with
      | nil =>
        rw [spliceAt_cons_succ_nil]
        simp [replaceMatching, hed, hcs0, ih]
      | cons j r'' =>
        rw [spliceAt_cons_succ_cons]
        simp [replaceMatching, hed, hcs0, ih]

/-! Helper lemmas about serialization. -/

theorem collectFields_append :
    ∀ (xs ys : List Dom), collectFields (xs ++ ys) = collectFields xs ++ collectFields ys
  | [], _ => by unfold collectFields; rfl
  | Dom.elem ed cs :: xs, ys => by
    have ih := collectFields_append xs ys
    simp [collectFields, ih]

theorem serializableField_hiddenInput (n v : String) (hn : n ≠ "") :
    serializableField (hiddenInput n v).ed = true := by
  simp [hiddenInput, Dom.ed, serializableField, ElemData.attr, fieldTag, excludedType,
    checkableType, List.find?, hn]

theorem serializeForm_append_hidden (fEd : ElemData) (cs : List Dom) (n v : String)
    (hn : n ≠ "") :
    serializeForm (Dom.elem fEd (cs ++ [hiddenInput n v])) =
      serializeForm (Dom.elem fEd cs) ++ [(n, v)] := by
  unfold serializeForm
  simp only [Dom.children, collectFields_append, List.map_append]
  congr 1
  have hsf : serializableField
      { tag := "input", attrs := [("type", "hidden"), ("name", n), ("value", v)],
        classes := [] } = true := by
    simpa [hiddenInput, Dom.ed] using serializableField_hiddenInput n v hn
  have hone : collectFields [hiddenInput n v] = [(hiddenInput n v).ed] := by
    unfold collectFields
    simp [hiddenInput, Dom.ed, hsf]
    unfold collectFields
    simp
  rw [hone]
  simp [hiddenInput, Dom.ed, ElemData.attr, List.find?]

/-! Helper lemmas about appendChildAt stability. -/

theorem getNode_append_lt (cs : List Dom) (x : Dom) (i : Nat) (q : Path)
    (hi : i < cs.length) :
    getNode (cs ++ [x]) (i :: q) = getNode cs (i :: q) := by
  cases q with
  | nil => simp [getNode, List.getElem?_append_left hi]
  | cons j r => simp [getNode, List.getElem?_append_left hi]

theorem getNode_appendChild_inside (fp : Path) (ts : List Dom) (x : Dom) (fEd : ElemData)
    (cs : List Dom) (i : Nat) (q : Path)
    (hf : getNode ts fp = some (Dom.elem fEd cs)) (hi : i < cs.length) :
    getNode (appendChildAt ts fp x) (fp ++ i :: q) = getNode ts (fp ++ i :: q) := by
  have hfp : fp ≠ [] := by
    intro h
    rw [h] at hf
    simp [getNode] at hf
  unfold appendChildAt
  rw [getNode_append_path (i :: q) (by simp) fp _ hfp,
      getNode_append_path (i :: q) (by simp) fp ts hfp,
      getNode_modify_self fp ts _ hfp, hf]
  simp [Dom.children, Dom.ed]
  exact getNode_append_lt cs x i q hi

theorem matchesAt_appendChild_stable (fp : Path) (ts : List Dom) (x : Dom) (fEd : ElemData)
    (cs : List Dom) (i : Nat) (q : Path) (r : Path) (sel : Selector)
    (hf : getNode ts fp = some (Dom.elem fEd cs)) (hi : i < cs.length)
    (hr : r <+: fp ++ i :: q) :
    matchesAt (appendChildAt ts fp x) r sel = matchesAt ts r sel := by
  by_cases hlen : r.length ≤ fp.length
  · have hrfp : r <+: fp := by
      have h1 : r = (fp ++ i :: q).take r.length := List.prefix_iff_eq_take.mp hr
      rw [List.take_append_eq_append_take, Nat.sub_eq_zero_of_le hlen] at h1
      simp at h1
      exact h1 ▸ List.take_prefix _ _
    apply matchesAt_congr_ed
    exact getNode_modify_prefix_ed r fp ts _ (fun t => by cases t; simp [Dom.ed]) hrfp
  · have hex : ∃ q', r = fp ++ i :: q' := by
      have h1 : r = (fp ++ i :: q).take r.length := List.prefix_iff_eq_take.mp hr
      rw [List.take_append_eq_append_take,
          List.take_of_length_le (Nat.le_of_lt (Nat.lt_of_not_le hlen))] at h1
      have hpos : 0 < r.length - fp.length := by omega
      rw [List.take_cons hpos] at h1
      exact ⟨(i :: q).tail.take (r.length - fp.length - 1), by simpa using h1⟩
    rcases hex with ⟨q', rfl⟩
    apply matchesAt_congr_ed
    rw [getNode_appendChild_inside fp ts x fEd cs i q' hf hi]

theorem closest_appendChild_stable (fp : Path) (ts : List Dom) (x : Dom) (fEd : ElemData)
    (cs : List Dom) (i : Nat) (q : Path) (sel : Selector)
    (hf : getNode ts fp = some (Dom.elem fEd cs)) (hi : i < cs.length) :
    closest (appendChildAt ts fp x) (fp ++ i :: q) sel = closest ts (fp ++ i :: q) sel := by
  unfold closest
  apply findCongr
  intro r hr
  exact matchesAt_appendChild_stable fp ts x fEd cs i q r sel hf hi
    (prefix_of_mem_ancestors hr).1

theorem dispatch_appendChild_stable (fp : Path) (ts : List Dom) (x : Dom) (fEd : ElemData)
    (cs : List Dom) (i : Nat) (q : Path)
    (hf : getNode ts fp = some (Dom.elem fEd cs)) (hi : i < cs.length) :
    buttonDispatchOk (appendChildAt ts fp x) (fp ++ i :: q) =
      buttonDispatchOk ts (fp ++ i :: q) := by
  unfold buttonDispatchOk
  rw [getNode_appendChild_inside fp ts x fEd cs i q hf hi]
  congr 1
  apply anyCongr
  intro r hr
  have h1 : r <+: (fp ++ i :: q).dropLast := (prefix_of_mem_ancestors hr).1
  have h2 : (fp ++ i :: q).dropLast <+: fp ++ i :: q := List.dropLast_prefix _
  exact matchesAt_appendChild_stable fp ts x fEd cs i q r _ hf hi (h1.trans h2)

theorem replaceMatching_id_of_anyMatch_false (sel : Selector) (new : List Dom) :
    ∀ (ts : List Dom), anyMatch sel ts = false → replaceMatching sel new ts = ts
  | [], _ => by unfold replaceMatching; rfl
  | Dom.elem ed cs :: ts', h => by
    have h3 : (sel.matches ed = false ∧ anyMatch sel cs = false) ∧ anyMatch sel ts' = false := by
      simpa [anyMatch] using h
    simp [replaceMatching, h3.1.1,
      replaceMatching_id_of_anyMatch_false sel new cs h3.1.2,
      replaceMatching_id_of_anyMatch_false sel new ts' h3.2]

theorem matchesAt_singleton_no_children (ed : ElemData) (sel : Selector) :
    ∀ q, matchesAt [Dom.elem ed []] q sel = true → ([0] : Path) <+: q := by
  intro q hq
  match q with
  | [] => rw [matchesAt_empty] at hq; simp at hq
  | [0] => exact List.prefix_refl _
  | 0 :: j :: r =>
    rw [matchesAt_cons_zero_deep] at hq
    unfold matchesAt at hq
    rw [getNode_nil] at hq
    simp at hq
  | (i + 1) :: r =>
    rw [matchesAt_cons_succ] at hq
    unfold matchesAt at hq
    rw [getNode_nil] at hq
    simp at hq

/-! Claim theorems. -/

/-- Claim C1, counterexample: in a document whose container already carries
the in-progress marker, a click on the annotated link inside it initiates no
request and leaves the document unchanged, but the effect trace is exactly
`[preventDefault]`: the handler calls `preventDefault` (line 79) before the
guard inside `ajaxReplace` (line 33) returns, so the claim that the event is
ignored "without calling preventDefault" is false on this input. -/
theorem c1_counterexample :
    activeGuard exDocActive [0, 0] = true ∧
    (linkClickTrigger exEnv exDocActive [0, 0] exLink exClick).2.1
      = [Effect.preventDefault] ∧
    (linkClickTrigger exEnv exDocActive [0, 0] exLink exClick).1 = exDocActive := by
  refine ⟨by decide, by decide, by decide⟩

/-- Claim C1 (amended): for clicks on annotated links that pass the
push-state gating, and for all submits of annotated forms, when some
ancestor of the triggering element carries the in-progress marker the
controller initiates zero network requests and leaves the document (and so
the marker state) unchanged, but `preventDefault` has already been called,
so the browser default behaviour is suppressed rather than allowed to
proceed. -/
theorem c1_guard_suppresses_but_prevents_default (env : EnvInfo) (ts : List Dom)
    (self : Path) (link : LinkInfo) (ev : ClickInfo) (form : FormInfo)
    (hguard : activeGuard ts self = true)
    (hgate : link.pushstate = false ∨
      (env.pushStateSupported = true ∧ ev.shiftKey = false ∧ ev.metaKey = false)) :
    linkClickTrigger env ts self link ev = (ts, [Effect.preventDefault], none) ∧
    formSubmitTrigger ts self form = (ts, [Effect.preventDefault], none) := by
  constructor
  · unfold linkClickTrigger
    rcases hgate with h | ⟨h1, h2, h3⟩
    · simp [h, ajaxReplaceTrigger, hguard]
    · simp [h1, h2, h3, ajaxReplaceTrigger, hguard]
  · unfold formSubmitTrigger
    simp [ajaxReplaceTrigger, hguard]

/-- Witness for the amended claim C1 at a concrete marked document. -/
theorem c1_witness :
    linkClickTrigger exEnv exDocActive [0, 0] exLink exClick
      = (exDocActive, [Effect.preventDefault], none) ∧
    formSubmitTrigger exDocActive [0, 0] exFormInfo
      = (exDocActive, [Effect.preventDefault], none) :=
  c1_guard_suppresses_but_prevents_default exEnv exDocActive [0, 0] exLink exClick
    exFormInfo (by decide) (Or.inl (by decide))

/-- Claim C8: a click on a push-state link is left entirely to the browser
default when push state is unsupported or the shift or meta key is held: the
handler produces no effect at all (no preventDefault, no request, no history
write) and the document is unchanged. -/
theorem c8_pushstate_gating (env : EnvInfo) (ts : List Dom) (self : Path)
    (link : LinkInfo) (ev : ClickInfo)
    (hps : link.pushstate = true)
    (hblock : env.pushStateSupported = false ∨ ev.shiftKey = true ∨ ev.metaKey = true) :
    linkClickTrigger env ts self link ev = (ts, [], none) := by
  unfold linkClickTrigger
  rcases hblock with h | h | h
  · simp [hps, h]
  · cases hsup : env.pushStateSupported with
    | false => simp [hps, hsup]
    | true => simp [hps, hsup, h]
  · cases hsup : env.pushStateSupported with
    | false => simp [hps, hsup]
    | true => simp [hps, hsup, h]

/-- Witness for claim C8: a shift-click on a push-state link. -/
theorem c8_witness :
    linkClickTrigger exEnv exDoc [0, 0] exLinkPush { shiftKey := true, metaKey := false }
      = (exDoc, [], none) :=
  c8_pushstate_gating exEnv exDoc [0, 0] exLinkPush
    { shiftKey := true, metaKey := false } (by decide) (Or.inr (Or.inl (by decide)))

/-- Claim C2: for an operation that passes the guard and resolves a
container, the marker is on the container right after the trigger; the
`always` step of settlement removes it; on the failure path the settled
document is exactly the unmarked one (so the marker is absent after
settlement, and on the success path the `always` step has already removed
it before the swap); and clearing the already-cleared marker again is a
no-op. -/
theorem c2_marker_lifecycle (ts : List Dom) (self : Path) (url : String) (opts : Options)
    (p : Path)
    (hguard : activeGuard ts self = false)
    (hcont : closest ts self (opts.selector.getD Selector.univ) = some p) :
    hasClassAt (ajaxReplaceTrigger ts self url opts).1 p "replace-active" = true ∧
    hasClassAt
      (settleAlways (ajaxReplaceTrigger ts self url opts).1
        { container := some p, success := opts.success }).1 p "replace-active" = false ∧
    ajaxReplaceSettle (ajaxReplaceTrigger ts self url opts).1
        { container := some p, success := opts.success } Outcome.failure
      = Except.ok
          (removeClassAt (ajaxReplaceTrigger ts self url opts).1 p "replace-active",
           [Effect.notify (NotifyTarget.container p) "replace:always",
            Effect.notify (NotifyTarget.container p) "replace:fail"]) ∧
    hasClassAt
      (removeClassAt (ajaxReplaceTrigger ts self url opts).1 p "replace-active") p
      "replace-active" = false ∧
    removeClassAt
        (removeClassAt (ajaxReplaceTrigger ts self url opts).1 p "replace-active") p
        "replace-active"
      = removeClassAt (ajaxReplaceTrigger ts self url opts).1 p "replace-active" := by
  obtain ⟨hmem, hmatch⟩ := closest_spec hcont
  obtain ⟨hpref, hpne⟩ := prefix_of_mem_ancestors hmem
  obtain ⟨t, ht, _⟩ := matchesAt_getNode hmatch
  have htrig : (ajaxReplaceTrigger ts self url opts).1 = addClassAt ts p "replace-active" := by
    simp [ajaxReplaceTrigger, hguard, hcont]
  refine ⟨?_, ?_, ?_, ?_, ?_⟩
  · rw [htrig]
    exact hasClassAt_addClassAt ts p _ hpne (by simp [ht])
  · simp only [settleAlways]
    exact hasClassAt_removeClassAt _ p _
  · simp [ajaxReplaceSettle, settleAlways]
  · exact hasClassAt_removeClassAt _ p _
  · exact removeClassAt_id _ p _ (hasClassAt_removeClassAt _ p _)

/-- Witness for claim C2 on the example document. -/
theorem c2_witness :
    hasClassAt (ajaxReplaceTrigger exDoc [0, 0] "/foo" exOpts).1 [0] "replace-active" = true ∧
    hasClassAt
      (settleAlways (ajaxReplaceTrigger exDoc [0, 0] "/foo" exOpts).1
        { container := some [0], success := exOpts.success }).1 [0] "replace-active" = false ∧
    ajaxReplaceSettle (ajaxReplaceTrigger exDoc [0, 0] "/foo" exOpts).1
        { container := some [0], success := exOpts.success } Outcome.failure
      = Except.ok
          (removeClassAt (ajaxReplaceTrigger exDoc [0, 0] "/foo" exOpts).1 [0] "replace-active",
           [Effect.notify (NotifyTarget.container [0]) "replace:always",
            Effect.notify (NotifyTarget.container [0]) "replace:fail"]) ∧
    hasClassAt
      (removeClassAt (ajaxReplaceTrigger exDoc [0, 0] "/foo" exOpts).1 [0] "replace-active") [0]
      "replace-active" = false ∧
    removeClassAt
        (removeClassAt (ajaxReplaceTrigger exDoc [0, 0] "/foo" exOpts).1 [0] "replace-active")
        [0] "replace-active"
      = removeClassAt (ajaxReplaceTrigger exDoc [0, 0] "/foo" exOpts).1 [0] "replace-active" :=
  c2_marker_lifecycle exDoc [0, 0] "/foo" exOpts [0] (by decide) (by decide)

/-- Claim C4: a back/forward navigation whose state is present and carries a
truthy selector with a nonempty stored markup, matching an element whose
path is the outermost match, replaces that element by the stored markup and
fires `replace:always` then `replace:done`, with no network request and no
`replace:start` notification. -/
theorem c4_popstate_restore (ts : List Dom) (sel : Selector) (st : List Dom) (p : Path)
    (hm : matchesAt ts p sel = true)
    (houter : ∀ q, matchesAt ts q sel = true → p <+: q)
    (hdata : st ≠ []) :
    popstateHandler ts (some { selector := some sel, data := st })
      = (spliceAt ts p st,
         [Effect.notify NotifyTarget.restored "replace:always",
          Effect.notify NotifyTarget.restored "replace:done"]) ∧
    ((popstateHandler ts (some { selector := some sel, data := st })).2.filter
      isRequestEffect) = [] ∧
    ((popstateHandler ts (some { selector := some sel, data := st })).2.filter
      isStartNotify) = [] := by
  have hany : anyMatch sel ts = true := anyMatch_of_matchesAt sel ts p hm
  have hsp := replaceMatching_eq_spliceAt sel st ts p hm houter
  have hne : st.isEmpty = false := by simpa [List.isEmpty_iff] using hdata
  have heq : popstateHandler ts (some { selector := some sel, data := st })
      = (spliceAt ts p st,
         [Effect.notify NotifyTarget.restored "replace:always",
          Effect.notify NotifyTarget.restored "replace:done"]) := by
    simp [popstateHandler, hany, hne, hsp]
  refine ⟨heq, ?_, ?_⟩ <;> rw [heq] <;> rfl

/-- Witness for claim C4 on a single-container document. -/
theorem c4_witness :
    popstateHandler exSingle
        (some { selector := some (Selector.cls "container"), data := exP })
      = (spliceAt exSingle [0] exP,
         [Effect.notify NotifyTarget.restored "replace:always",
          Effect.notify NotifyTarget.restored "replace:done"]) ∧
    ((popstateHandler exSingle
        (some { selector := some (Selector.cls "container"), data := exP })).2.filter
      isRequestEffect) = [] ∧
    ((popstateHandler exSingle
        (some { selector := some (Selector.cls "container"), data := exP })).2.filter
      isStartNotify) = [] :=
  c4_popstate_restore exSingle (Selector.cls "container") exP [0] (by decide)
    (matchesAt_singleton_no_children
      { tag := "div", attrs := [], classes := ["container"] } (Selector.cls "container"))
    (by decide)

/-- Claim C5: on success the `always` step runs first, then the per-call
success callback is run against the document before the swap (its effects
are computed from the unswapped document), then the resolved container
subtree is spliced out and replaced by the parsed response body verbatim,
and `replace:done` is emitted on the inserted content last. -/
theorem c5_success_swap (ts : List Dom) (pend : Pending) (p : Path) (body : List Dom)
    (cbEffs : List Effect)
    (hp : pend.container = some p)
    (hcb : runSuccessCb (removeClassAt ts p "replace-active") (some p) pend.success body
        = Except.ok cbEffs)
    (hbody : body ≠ []) :
    ajaxReplaceSettle ts pend (Outcome.success body)
      = Except.ok
          (spliceAt (removeClassAt ts p "replace-active") p body,
           Effect.notify (NotifyTarget.container p) "replace:always" ::
             (cbEffs ++ [Effect.notify NotifyTarget.newContent "replace:done"])) := by
  have hne : body.isEmpty = false := by simpa [List.isEmpty_iff] using hbody
  simp [ajaxReplaceSettle, settleAlways, hp, hcb, hne]

/-- Witness for claim C5 on the marked example document. -/
theorem c5_witness :
    ajaxReplaceSettle exDocActive { container := some [0], success := SuccessCb.noCb }
        (Outcome.success exP)
      = Except.ok
          (spliceAt (removeClassAt exDocActive [0] "replace-active") [0] exP,
           Effect.notify (NotifyTarget.container [0]) "replace:always" ::
             (([] : List Effect) ++ [Effect.notify NotifyTarget.newContent "replace:done"])) :=
  c5_success_swap exDocActive { container := some [0], success := SuccessCb.noCb } [0] exP []
    rfl rfl (by decide)

/-- Claim C6: on failure the settled state is exactly the unmarked document
with the trace `replace:always` then `replace:fail`, both on the container;
the container node is still present with only the marker class removed (its
subtree unchanged), it is unmarked, and the settlement trace holds no
request (no retry). -/
theorem c6_failure_handling (ts : List Dom) (pend : Pending) (p : Path) (t : Dom)
    (hp : pend.container = some p)
    (ht : getNode ts p = some t) :
    ajaxReplaceSettle ts pend Outcome.failure
      = Except.ok
          (removeClassAt ts p "replace-active",
           [Effect.notify (NotifyTarget.container p) "replace:always",
            Effect.notify (NotifyTarget.container p) "replace:fail"]) ∧
    getNode (removeClassAt ts p "replace-active") p
      = some (Dom.mapEd (removeClassE "replace-active") t) ∧
    (Dom.mapEd (removeClassE "replace-active") t).children = t.children ∧
    hasClassAt (removeClassAt ts p "replace-active") p "replace-active" = false ∧
    ([Effect.notify (NotifyTarget.container p) "replace:always",
      Effect.notify (NotifyTarget.container p) "replace:fail"].filter isRequestEffect)
      = [] := by
  have hpne : p ≠ [] := by
    intro h
    rw [h] at ht
    simp [getNode] at ht
  refine ⟨?_, ?_, ?_, ?_, ?_⟩
  · simp [ajaxReplaceSettle, settleAlways, hp]
  · unfold removeClassAt
    rw [getNode_modify_self p ts _ hpne, ht]
    rfl
  · cases t
    simp [Dom.mapEd, Dom.children]
  · exact hasClassAt_removeClassAt ts p _
  · rfl

/-- Witness for claim C6 on the marked example document. -/
theorem c6_witness :
    ajaxReplaceSettle exDocActive { container := some [0], success := SuccessCb.noCb }
        Outcome.failure
      = Except.ok
          (removeClassAt exDocActive [0] "replace-active",
           [Effect.notify (NotifyTarget.container [0]) "replace:always",
            Effect.notify (NotifyTarget.container [0]) "replace:fail"]) ∧
    getNode (removeClassAt exDocActive [0] "replace-active") [0]
      = some (Dom.mapEd (removeClassE "replace-active") exContainerActive) ∧
    (Dom.mapEd (removeClassE "replace-active") exContainerActive).children
      = exContainerActive.children ∧
    hasClassAt (removeClassAt exDocActive [0] "replace-active") [0] "replace-active" = false ∧
    ([Effect.notify (NotifyTarget.container [0]) "replace:always",
      Effect.notify (NotifyTarget.container [0]) "replace:fail"].filter isRequestEffect)
      = [] :=
  c6_failure_handling exDocActive { container := some [0], success := SuccessCb.noCb } [0]
    exContainerActive rfl rfl

/-- Claim C9, counterexample: a push-state link whose selector matches no
ancestor still issues the request (the pending operation has an empty
container), but on success the history-writing callback reads the outer
markup of the missing container and raises an error, so the claim that such
operations raise no error and otherwise proceed normally is false on this
input. -/
theorem c9_counterexample :
    closest exLinkOnly [0] (Selector.cls "missing") = none ∧
    (linkClickTrigger exEnv exLinkOnly [0] exLinkMissing exClick).2.2
      = some { container := none,
               success := SuccessCb.pushCb true (some (Selector.cls "missing")) "/foo" } ∧
    ajaxReplaceSettle (linkClickTrigger exEnv exLinkOnly [0] exLinkMissing exClick).1
        { container := none,
          success := SuccessCb.pushCb true (some (Selector.cls "missing")) "/foo" }
        (Outcome.success exP)
      = Except.error () := by
  refine ⟨by decide, by decide, rfl⟩

/-- Claim C9 (amended): an operation whose selector matches no element is
not validated: the trigger leaves the document unchanged, emits no
notification and still issues the request, and settlement (success or
failure) raises no error and leaves the document unchanged — except when
the operation is a push-state-enabled link, whose success callback reads
the missing container's outer markup and raises a TypeError.  A popstate
restore whose stored selector matches nothing is likewise a silent no-op. -/
theorem c9_missing_selector_noop (ts : List Dom) (self : Path) (url : String)
    (opts : Options) (pend : Pending) (body : List Dom) (sel : Selector) (st : List Dom)
    (hguard : activeGuard ts self = false)
    (hcont : closest ts self (opts.selector.getD Selector.univ) = none)
    (hpc : pend.container = none)
    (hsafe : isEnabledPush pend.success = false)
    (hnm : anyMatch sel ts = false) :
    ajaxReplaceTrigger ts self url opts
      = (ts, [Effect.request url (opts.method.getD "GET") opts.data],
         some { container := none, success := opts.success }) ∧
    ajaxReplaceSettle ts pend (Outcome.success body) = Except.ok (ts, []) ∧
    ajaxReplaceSettle ts pend Outcome.failure = Except.ok (ts, []) ∧
    popstateHandler ts (some { selector := some sel, data := st }) = (ts, []) := by
  refine ⟨?_, ?_, ?_, ?_⟩
  · simp [ajaxReplaceTrigger, hguard, hcont]
  · have hcb : runSuccessCb ts none pend.success body = Except.ok [] := by
      cases hcs : pend.success with
      | noCb => rfl
      | pushCb ps s h =>
        cases ps with
        | false => rfl
        | true => rw [hcs] at hsafe; simp [isEnabledPush] at hsafe
    simp [ajaxReplaceSettle, settleAlways, hpc, hcb]
  · simp [ajaxReplaceSettle, settleAlways, hpc]
  · simp [popstateHandler, hnm, replaceMatching_id_of_anyMatch_false sel st ts hnm]

/-- Witness for the amended claim C9 on the selector-less link document. -/
theorem c9_witness :
    ajaxReplaceTrigger exLinkOnly [0] "/foo" exOptsMissing
      = (exLinkOnly, [Effect.request "/foo" "GET" none],
         some { container := none, success := SuccessCb.noCb }) ∧
    ajaxReplaceSettle exLinkOnly { container := none, success := SuccessCb.noCb }
        (Outcome.success exP) = Except.ok (exLinkOnly, []) ∧
    ajaxReplaceSettle exLinkOnly { container := none, success := SuccessCb.noCb }
        Outcome.failure = Except.ok (exLinkOnly, []) ∧
    popstateHandler exLinkOnly
        (some { selector := some (Selector.cls "missing"), data := exP })
      = (exLinkOnly, []) :=
  c9_missing_selector_noop exLinkOnly [0] "/foo" exOptsMissing
    { container := none, success := SuccessCb.noCb } exP (Selector.cls "missing") exP
    (by decide) (by decide) rfl rfl
    (by simp [exLinkOnly, anyMatch, Selector.matches])

/-- Claim C3: a successful push-state link operation performs exactly two
history writes, in order: first `replaceState` with the raw `data-replace`
value and the container's markup before replacement (the marker added at
trigger has been removed again by the `always` step, so the captured node is
the pre-click container), then `pushState` with the freshly fetched body
and the link's `href`. -/
theorem c3_history_writes (env : EnvInfo) (ts : List Dom) (self : Path) (link : LinkInfo)
    (ev : ClickInfo) (p : Path) (t0 : Dom) (body : List Dom) (pend : Pending)
    (res : List Dom × List Effect)
    (hps : link.pushstate = true)
    (hsup : env.pushStateSupported = true)
    (hshift : ev.shiftKey = false)
    (hmeta : ev.metaKey = false)
    (hguard : activeGuard ts self = false)
    (hcont : closest ts self (link.replaceSel.getD Selector.univ) = some p)
    (ht0 : getNode ts p = some t0)
    (hpend : (linkClickTrigger env ts self link ev).2.2 = some pend)
    (hsettle : ajaxReplaceSettle (linkClickTrigger env ts self link ev).1 pend
        (Outcome.success body) = Except.ok res) :
    ((linkClickTrigger env ts self link ev).2.1 ++ res.2).filter isHistEffect
      = [Effect.histReplace { selector := link.replaceSel, data := [t0] },
         Effect.histPush { selector := link.replaceSel, data := body } link.href] := by
  have htrig : linkClickTrigger env ts self link ev
      = (addClassAt ts p "replace-active",
         [Effect.preventDefault,
          Effect.notify (NotifyTarget.container p) "replace:start",
          Effect.request link.href "GET" none],
         some { container := some p,
                success := SuccessCb.pushCb true link.replaceSel link.href }) := by
    unfold linkClickTrigger
    simp [hps, hsup, hshift, hmeta, ajaxReplaceTrigger, hguard, hcont]
  have hnoclass : hasClassAt ts p "replace-active" = false :=
    guard_no_class hguard (closest_spec hcont).1
  have hround : removeClassAt (addClassAt ts p "replace-active") p "replace-active" = ts :=
    removeClassAt_addClassAt ts p _ hnoclass
  rw [htrig] at hpend hsettle ⊢
  have hpe : pend = { container := some p,
                      success := SuccessCb.pushCb true link.replaceSel link.href } := by
    injection hpend with h
    exact h.symm
  subst hpe
  have hcb : runSuccessCb
      (removeClassAt (addClassAt ts p "replace-active") p "replace-active") (some p)
      (SuccessCb.pushCb true link.replaceSel link.href) body
      = Except.ok [Effect.histReplace { selector := link.replaceSel, data := [t0] },
                   Effect.histPush { selector := link.replaceSel, data := body } link.href] := by
    rw [hround]
    simp [runSuccessCb, ht0]
  have hset : ajaxReplaceSettle (addClassAt ts p "replace-active")
      { container := some p, success := SuccessCb.pushCb true link.replaceSel link.href }
      (Outcome.success body)
      = Except.ok
          (spliceAt (removeClassAt (addClassAt ts p "replace-active") p "replace-active")
            p body,
           [Effect.notify (NotifyTarget.container p) "replace:always",
            Effect.histReplace { selector := link.replaceSel, data := [t0] },
            Effect.histPush { selector := link.replaceSel, data := body } link.href]
           ++ (if body.isEmpty then []
               else [Effect.notify NotifyTarget.newContent "replace:done"])) := by
    simp [ajaxReplaceSettle, settleAlways, hcb]
  rw [hset] at hsettle
  have hres : res
      = (spliceAt (removeClassAt (addClassAt ts p "replace-active") p "replace-active")
          p body,
         [Effect.notify (NotifyTarget.container p) "replace:always",
          Effect.histReplace { selector := link.replaceSel, data := [t0] },
          Effect.histPush { selector := link.replaceSel, data := body } link.href]
         ++ (if body.isEmpty then []
             else [Effect.notify NotifyTarget.newContent "replace:done"])) := by
    injection hsettle with h
    exact h.symm
  subst hres
  cases hbe : body.isEmpty <;> simp [hbe, isHistEffect]

/-- Witness for claim C3 on the example push-state click. -/
theorem c3_witness :
    ((linkClickTrigger exEnv exDoc [0, 0] exLinkPush exClick).2.1
        ++ (spliceAt (removeClassAt (addClassAt exDoc [0] "replace-active") [0]
              "replace-active") [0] exP,
            [Effect.notify (NotifyTarget.container [0]) "replace:always",
             Effect.histReplace
               { selector := some (Selector.cls "container"), data := [exContainer] },
             Effect.histPush
               { selector := some (Selector.cls "container"), data := exP } "/foo"]
            ++ (if exP.isEmpty then []
                else [Effect.notify NotifyTarget.newContent "replace:done"])).2).filter
      isHistEffect
      = [Effect.histReplace { selector := some (Selector.cls "container"), data := [exContainer] },
         Effect.histPush { selector := some (Selector.cls "container"), data := exP } "/foo"] :=
  c3_history_writes exEnv exDoc [0, 0] exLinkPush exClick [0] exContainer exP
    { container := some [0],
      success := SuccessCb.pushCb true (some (Selector.cls "container")) "/foo" }
    _ rfl rfl rfl rfl (by decide) (by decide) rfl rfl rfl

theorem getNode_cons_isSome_lt {cs : List Dom} {i : Nat} {q : Path} {t : Dom}
    (h : getNode cs (i :: q) = some t) : i < cs.length := by
  cases q with
  | nil =>
    unfold getNode at h
    exact (List.getElem?_eq_some_iff.mp h).1
  | cons j r =>
    unfold getNode at h
    cases hc : cs[i]? with
    | none => rw [hc] at h; simp at h
    | some u => exact (List.getElem?_eq_some_iff.mp hc).1

/-- Claim C7: submitting the annotated form after a button click issues one
request to the form's action with the form's declared method, whose payload
is the form's serialized field set with the synthesized hidden input (the
clicked button's name and value) appended by the click handler before
serialization; the submit handler prevents the default first.  Annotated
links issue a GET request to their `href` with no payload. -/
theorem c7_form_request (ts ts2 : List Dom) (self fp : Path) (fi : FormInfo)
    (btnEd : ElemData) (bcs : List Dom) (fEd : ElemData) (fcs : List Dom) (n v : String)
    (env2 : EnvInfo) (ts3 : List Dom) (self3 : Path) (link3 : LinkInfo) (ev3 : ClickInfo)
    (hbtn : getNode ts self = some (Dom.elem btnEd bcs))
    (hname : btnEd.attr "name" = some n)
    (hval : btnEd.attr "value" = some v)
    (hn : n ≠ "")
    (hdisp : buttonDispatchOk ts self = true)
    (hform : closest ts self (Selector.tag "form") = some fp)
    (hfp : getNode ts fp = some (Dom.elem fEd fcs))
    (hstep : buttonClickTrigger ts self = ts2)
    (hguard : activeGuard ts2 fp = false)
    (hps3 : link3.pushstate = false)
    (hguard3 : activeGuard ts3 self3 = false) :
    (formSubmitTrigger ts2 fp fi).2.1.filter isRequestEffect
      = [Effect.request fi.action (fi.method.getD "GET")
          (some (serializeForm (Dom.elem fEd fcs) ++ [(n, v)]))] ∧
    (formSubmitTrigger ts2 fp fi).2.1.head? = some Effect.preventDefault ∧
    (linkClickTrigger env2 ts3 self3 link3 ev3).2.1.filter isRequestEffect
      = [Effect.request link3.href "GET" none] := by
  have hfpne : fp ≠ [] := by
    intro h
    rw [h] at hfp
    simp [getNode] at hfp
  have hstep2 : ts2 = appendChildAt ts fp (hiddenInput n v) := by
    rw [← hstep]
    unfold buttonClickTrigger
    simp [hdisp, hbtn, hform, Dom.ed, hname, hval]
  have hget2 : getNode ts2 fp = some (Dom.elem fEd (fcs ++ [hiddenInput n v])) := by
    rw [hstep2]
    unfold appendChildAt
    rw [getNode_modify_self fp ts _ hfpne, hfp]
    simp [Dom.ed, Dom.children]
  have hser := serializeForm_append_hidden fEd fcs n v hn
  refine ⟨?_, ?_, ?_⟩
  · unfold formSubmitTrigger
    rw [hget2]
    cases hclos : closest ts2 fp (fi.replaceSel.getD Selector.univ) with
    | none => simp [ajaxReplaceTrigger, hguard, hclos, isRequestEffect, hser]
    | some c => simp [ajaxReplaceTrigger, hguard, hclos, isRequestEffect, hser]
  · unfold formSubmitTrigger
    cases hclos : closest ts2 fp (fi.replaceSel.getD Selector.univ) with
    | none => simp [ajaxReplaceTrigger, hguard, hclos]
    | some c => simp [ajaxReplaceTrigger, hguard, hclos]
  · unfold linkClickTrigger
    cases hclos : closest ts3 self3 (link3.replaceSel.getD Selector.univ) with
    | none => simp [hps3, ajaxReplaceTrigger, hguard3, hclos, isRequestEffect]
    | some c => simp [hps3, ajaxReplaceTrigger, hguard3, hclos, isRequestEffect]

/-- Witness for claim C7 on the example form with its button clicked. -/
theorem c7_witness :
    (formSubmitTrigger exFormClicked [0] exFormInfo).2.1.filter isRequestEffect
      = [Effect.request exFormInfo.action (exFormInfo.method.getD "GET")
          (some (serializeForm (Dom.elem exFormEd exFormChildren) ++ [("b", "two")]))] ∧
    (formSubmitTrigger exFormClicked [0] exFormInfo).2.1.head?
      = some Effect.preventDefault ∧
    (linkClickTrigger exEnv exDoc [0, 0] exLink exClick).2.1.filter isRequestEffect
      = [Effect.request exLink.href "GET" none] :=
  c7_form_request exForm exFormClicked [0, 1] [0] exFormInfo exBtnEd [] exFormEd
    exFormChildren "b" "two" exEnv exDoc [0, 0] exLink exClick
    rfl rfl rfl (by decide) (by decide) (by decide) rfl (by decide) (by decide)
    (by decide) (by decide)

/-- Claim C10: every click on the button appends one synthesized hidden
input to the form and removes nothing, so after `k` clicks the form's
children are the original ones followed by `k` copies of the hidden input,
and the serialized field set is the original one followed by all `k`
synthesized name/value pairs, not only the last. -/
theorem c10_button_accumulation (ts : List Dom) (fp : Path) (i : Nat) (q : Path)
    (btnEd : ElemData) (bcs : List Dom) (fEd : ElemData) (cs : List Dom)
    (n v : String) (k : Nat)
    (hbtn : getNode ts (fp ++ i :: q) = some (Dom.elem btnEd bcs))
    (hname : btnEd.attr "name" = some n)
    (hval : btnEd.attr "value" = some v)
    (hn : n ≠ "")
    (hdisp : buttonDispatchOk ts (fp ++ i :: q) = true)
    (hform : closest ts (fp ++ i :: q) (Selector.tag "form") = some fp)
    (hfp : getNode ts fp = some (Dom.elem fEd cs)) :
    getNode (clickN ts (fp ++ i :: q) k) fp
      = some (Dom.elem fEd (cs ++ List.replicate k (hiddenInput n v))) ∧
    serializeForm (Dom.elem fEd (cs ++ List.replicate k (hiddenInput n v)))
      = serializeForm (Dom.elem fEd cs) ++ List.replicate k (n, v) := by
  have hfpne : fp ≠ [] := by
    intro h
    rw [h] at hfp
    simp [getNode] at hfp
  have hi : i < cs.length := by
    rw [getNode_append_path (i :: q) (by simp) fp ts hfpne, hfp] at hbtn
    simp [Dom.children] at hbtn
    exact getNode_cons_isSome_lt hbtn
  have inv : ∀ m,
      getNode (clickN ts (fp ++ i :: q) m) (fp ++ i :: q) = some (Dom.elem btnEd bcs) ∧
      buttonDispatchOk (clickN ts (fp ++ i :: q) m) (fp ++ i :: q) = true ∧
      closest (clickN ts (fp ++ i :: q) m) (fp ++ i :: q) (Selector.tag "form") = some fp ∧
      getNode (clickN ts (fp ++ i :: q) m) fp
        = some (Dom.elem fEd (cs ++ List.replicate m (hiddenInput n v))) := by
    intro m
    induction m with
    | zero =>
      refine ⟨hbtn, hdisp, hform, ?_⟩
      simpa using hfp
    | succ m ihm =>
      obtain ⟨ih1, ih2, ih3, ih4⟩ := ihm
      have hm_lt : i < (cs ++ List.replicate m (hiddenInput n v)).length := by
        simp [List.length_append]
        omega
      have hstep : clickN ts (fp ++ i :: q) (m + 1)
          = appendChildAt (clickN ts (fp ++ i :: q) m) fp (hiddenInput n v) := by
        show buttonClickTrigger (clickN ts (fp ++ i :: q) m) (fp ++ i :: q) = _
        unfold buttonClickTrigger
        simp [ih2, ih1, ih3, Dom.ed, hname, hval]
      refine ⟨?_, ?_, ?_, ?_⟩
      · rw [hstep,
          getNode_appendChild_inside fp _ _ fEd (cs ++ List.replicate m (hiddenInput n v))
            i q ih4 hm_lt]
        exact ih1
      · rw [hstep,
          dispatch_appendChild_stable fp _ _ fEd (cs ++ List.replicate m (hiddenInput n v))
            i q ih4 hm_lt]
        exact ih2
      · rw [hstep,
          closest_appendChild_stable fp _ _ fEd (cs ++ List.replicate m (hiddenInput n v))
            i q _ ih4 hm_lt]
        exact ih3
      · rw [hstep]
        unfold appendChildAt
        rw [getNode_modify_self fp _ _ hfpne, ih4]
        simp [Dom.ed, Dom.children, List.replicate_succ' m, List.append_assoc]
  have ser : ∀ m, serializeForm (Dom.elem fEd (cs ++ List.replicate m (hiddenInput n v)))
      = serializeForm (Dom.elem fEd cs) ++ List.replicate m (n, v) := by
    intro m
    induction m with
    | zero => simp
    | succ m ihm =>
      rw [List.replicate_succ' m (hiddenInput n v), ← List.append_assoc,
        serializeForm_append_hidden fEd (cs ++ List.replicate m (hiddenInput n v)) n v hn,
        ihm, List.replicate_succ' m (n, v), ← List.append_assoc]
  exact ⟨(inv k).2.2.2, ser k⟩

/-- Witness for claim C10: two clicks on the example button. -/
theorem c10_witness :
    getNode (clickN exForm [0, 1] 2) [0]
      = some (Dom.elem exFormEd (exFormChildren ++ List.replicate 2 (hiddenInput "b" "two"))) ∧
    serializeForm (Dom.elem exFormEd (exFormChildren ++ List.replicate 2 (hiddenInput "b" "two")))
      = serializeForm (Dom.elem exFormEd exFormChildren) ++ List.replicate 2 ("b", "two") :=
  c10_button_accumulation exForm [0] 1 [] exBtnEd [] exFormEd exFormChildren "b" "two" 2
    rfl rfl rfl (by decide) (by decide) (by decide) rfl

end ReplaceJs
